import Mathlib

/-!
# pgjobq — verification of the SQL data-access layer

Shallow embedding of `src/pgjobq/sql/_functions.py`: the six parameterised SQL
statements (publish, poll, poll-fifo, ack, nack, extend-ack-deadline) together
with their thin Python wrappers, modelled as pure functions over an explicit
database state.

Modelling conventions:
* Timestamps and intervals are `Int` (instants on a discrete time line);
  `now` is passed explicitly where the SQL calls `now()`.
* Message UUIDs are `Nat`: they are opaque identifiers with a total order
  (`ORDER BY id` compares them), which is all the statements use.
* Message bodies are `String` (opaque payload).
* The schema (external to the repository, described only by its consumers) has
  `queues.name` unique and `messages.id` globally unique; scalar subqueries
  such as `(SELECT id FROM pgjobq.queues WHERE name = $1)` are therefore
  modelled with `List.find?`, and uniqueness is an explicit well-formedness
  hypothesis where a proof needs it.
* `pg_notify` side effects inside CTEs are modelled demand-driven, matching
  the executor: a CTE is evaluated (and its notification emitted) exactly when
  the enclosing statement first demands a row from it; a `WHERE` clause is the
  conjunction of its conjuncts evaluated left to right on each candidate row.
* `FOR UPDATE SKIP LOCKED` is modelled by a `locked` parameter: the set of row
  ids currently locked by other transactions, which the statement skips.
* A fallible wrapper (`publish_messages` raising `LookupError`) returns
  `Except String`.
-/

namespace Pgjobq

/-- A row of `pgjobq.queues` (read-only to this layer). -/
structure Queue where
  id : Nat
  name : String
  ackDeadline : Int
  retentionPeriod : Int
  maxDeliveryAttempts : Int
deriving Repr, DecidableEq

/-- A row of `pgjobq.messages`, fields in the order of the `INSERT` column
list of `PUBLISH_MESSAGES` (`queue_id, id, expires_at,
delivery_attempts_remaining, available_at, body`). -/
structure Msg where
  queueId : Nat
  id : Nat
  expiresAt : Int
  deliveryAttemptsRemaining : Int
  availableAt : Int
  body : String
deriving Repr, DecidableEq

/-- The database state these statements read and write. -/
structure DB where
  queues : List Queue
  messages : List Msg
deriving Repr, DecidableEq

/-- A notification emitted by `pg_notify`: channel `pgjobq.new_job` carries the
queue name, channel `pgjobq.job_completed` carries `"<queue_name>,<job_id>"`
(modelled structurally as the pair). -/
inductive Notif where
  | newJob (queueName : String)
  | jobCompleted (queueName : String) (jobId : Nat)
deriving Repr, DecidableEq

/-- A record returned by the poll statement:
`RETURNING pgjobq.messages.id AS id, available_at AS next_ack_deadline, body`
(the `RETURNING` of an `UPDATE` sees the new values). -/
structure PolledMsg where
  id : Nat
  next_ack_deadline : Int
  body : String
deriving Repr, DecidableEq

/-- `SELECT ... FROM pgjobq.queues WHERE name = $1` — `name` is unique in the
schema, so the first match is the only match. -/
def findQueue (db : DB) (queue_name : String) : Option Queue :=
  db.queues.find? (fun q => q.name == queue_name)

/-- The row filter of `selected_messages` in `_POLL_FOR_MESSAGES`:
`delivery_attempts_remaining != 0 AND expires_at > now() AND
available_at < now() AND queue_id = (SELECT id FROM queue_info)`. -/
def deliverable (qid : Nat) (now : Int) (m : Msg) : Bool :=
  decide (m.deliveryAttemptsRemaining ≠ 0) &&
  decide (m.expiresAt > now) &&
  decide (m.availableAt < now) &&
  (m.queueId == qid)

/-- The deliverability predicate as the spec words it (§3):
`delivery_attempts_remaining > 0 ∧ expires_at > now ∧ available_at ≤ now`.
Kept separate from `deliverable` (which is translated from the SQL) so the two
can be compared. -/
def spec_deliverable (qid : Nat) (now : Int) (m : Msg) : Bool :=
  decide (m.deliveryAttemptsRemaining > 0) &&
  decide (m.expiresAt > now) &&
  decide (m.availableAt ≤ now) &&
  (m.queueId == qid)

/-- `ORDER BY id` compares message ids ascending. -/
def msgIdLe (a b : Msg) : Prop := a.id ≤ b.id

instance : DecidableRel msgIdLe := fun a b => inferInstanceAs (Decidable (a.id ≤ b.id))

instance : IsTotal Msg msgIdLe := ⟨fun a b => Nat.le_total a.id b.id⟩

instance : IsTrans Msg msgIdLe := ⟨fun _ _ _ hab hbc => Nat.le_trans hab hbc⟩

/-- `POLL_FOR_MESSAGES` / `POLL_FOR_MESSAGES_FIFO` plus the
`poll_for_messages` wrapper, which only chooses between the two query strings
(`fifo` picks `ORDER BY id`) and fetches all rows.

`queue_info` resolves the queue by name; a missing queue makes the scalar
subquery NULL so no row qualifies. `selected_messages` filters deliverable
rows of that queue, skipping rows locked by other transactions
(`FOR UPDATE SKIP LOCKED`, the `locked` parameter), optionally orders by id,
and takes `LIMIT $2`. The `UPDATE` then rewrites every message whose id is in
the selection (`WHERE pgjobq.messages.id = selected_messages.id` joins on id
alone), setting `available_at = now() + ack_deadline` and decrementing
`delivery_attempts_remaining`, and returns the new values. -/
def poll_for_messages (db : DB) (now : Int) (queue_name : String)
    (batch_size : Nat) (fifo : Bool) (locked : List Nat) :
    List PolledMsg × DB :=
  match findQueue db queue_name with
  | none => ([], db)
  | some q =>
    let candidates := db.messages.filter
      (fun m => deliverable q.id now m && !(locked.contains m.id))
    let ordered := if fifo then List.insertionSort msgIdLe candidates else candidates
    let selected := ordered.take batch_size
    let selectedIds := selected.map Msg.id
    let newMessages := db.messages.map (fun m =>
      if selectedIds.contains m.id then
        { m with availableAt := now + q.ackDeadline,
                 deliveryAttemptsRemaining := m.deliveryAttemptsRemaining - 1 }
      else m)
    (selected.map (fun m =>
        { id := m.id, next_ack_deadline := now + q.ackDeadline, body := m.body }),
     { db with messages := newMessages })

/-- The `PUBLISH_MESSAGES` statement. `queue_info` resolves the queue by name;
the `INSERT ... SELECT` inserts one row per `queue_info` row (so none when the
queue is missing, and `RETURNING 1` then yields no value for `fetchval`).
`published_notification` is demanded through the `LEFT JOIN` once per
`queue_info` row, so the `pg_notify('pgjobq.new_job', $1)` fires iff the queue
exists. The inserted row has `available_at = now() + COALESCE($4, 0)`. -/
def publish_messages_sql (db : DB) (now : Int) (queue_name : String)
    (message_id : Nat) (message_body : String) (delay : Option Int) :
    Option Nat × DB × List Notif :=
  match findQueue db queue_name with
  | none => (none, db, [])
  | some q =>
    (some 1,
     { db with messages := db.messages ++
        [{ queueId := q.id,
           id := message_id,
           expiresAt := now + q.retentionPeriod,
           deliveryAttemptsRemaining := q.maxDeliveryAttempts,
           availableAt := now + delay.getD 0,
           body := message_body }] },
     [Notif.newJob queue_name])

/-- The `publish_messages` wrapper: `fetchval` returning NULL (no row
inserted, hence no queue of that name) raises `LookupError`. -/
def publish_messages (db : DB) (now : Int) (queue_name : String)
    (message_id : Nat) (message_body : String) (delay : Option Int) :
    Except String (DB × List Notif) :=
  match publish_messages_sql db now queue_name message_id message_body delay with
  | (none, _, _) =>
      Except.error ("Queue not found: there is no queue named " ++ queue_name)
  | (some _, db', notifs) => Except.ok (db', notifs)

/-- The shared row predicate of `ACK_MESSAGE` and `NACK_MESSAGE`:
`queue_id = (SELECT id FROM pgjobq.queues WHERE name = $1) AND id = $2`.
A missing queue makes the scalar subquery NULL, so no row matches. -/
def rowMatches (db : DB) (queue_name : String) (job_id : Nat) (m : Msg) : Bool :=
  ((findQueue db queue_name).map Queue.id == some m.queueId) && (m.id == job_id)

/-- `ACK_MESSAGE` plus the `ack_message` wrapper (which only executes the
statement). The `DELETE` removes the rows matching the first two conjuncts;
the third conjunct `1 = (SELECT 1 FROM msg)` is always true when demanded and
exists only to tie the `pg_notify('pgjobq.job_completed', ...)` CTE to the
statement: it is demanded — and the notification emitted — exactly when some
candidate row passes the first two conjuncts. -/
def ack_message (db : DB) (queue_name : String) (job_id : Nat) :
    DB × List Notif :=
  let demanded := db.messages.any (fun m => rowMatches db queue_name job_id m)
  ({ db with messages :=
      db.messages.filter (fun m => !(rowMatches db queue_name job_id m)) },
   if demanded then [Notif.jobCompleted queue_name job_id] else [])

/-- `NACK_MESSAGE` plus the `nack_message` wrapper. The `UPDATE` sets
`available_at = now()` on the matching rows; the `msg` CTE carries
`pg_notify('pgjobq.new_job', $1)` and is demanded exactly when some candidate
row passes the first two conjuncts. -/
def nack_message (db : DB) (now : Int) (queue_name : String) (job_id : Nat) :
    DB × List Notif :=
  let demanded := db.messages.any (fun m => rowMatches db queue_name job_id m)
  ({ db with messages := db.messages.map (fun m =>
      if rowMatches db queue_name job_id m then { m with availableAt := now }
      else m) },
   if demanded then [Notif.newJob queue_name] else [])

/-- `EXTEND_ACK_DEADLINE` plus the `extend_ack_deadline` wrapper (which
returns `fetchval`, i.e. the first returned value or nothing).
`message_for_update` selects the matching row `FOR UPDATE SKIP LOCKED`
(skipping ids in `locked`); if it is empty the scalar subqueries are NULL, the
`UPDATE` matches no row, and `fetchval` yields nothing. Otherwise the
`UPDATE` sets, on every message whose id equals the selected id,
`available_at = now() + ack_deadline` of the queue whose id is the selected
row's `queue_id`, and returns the new `available_at`. -/
def extend_ack_deadline (db : DB) (now : Int) (queue_name : String)
    (job_id : Nat) (locked : List Nat) : Option Int × DB :=
  let mfu := db.messages.filter (fun m =>
    rowMatches db queue_name job_id m && !(locked.contains m.id))
  match mfu with
  | [] => (none, db)
  | m0 :: _ =>
    match db.queues.find? (fun q => q.id == m0.queueId) with
    | none => (none, db)
    | some q =>
      let newAvail := now + q.ackDeadline
      (some newAvail,
       { db with messages := db.messages.map (fun m =>
          if m.id == m0.id then { m with availableAt := newAvail } else m) })

/-- Schema well-formedness used where a proof needs it: queue ids and names
are unique (`queues.name` has a unique constraint, `queues.id` is the key) and
message ids are globally unique (`messages.id` is a UUID key). -/
def DB.wf (db : DB) : Prop :=
  db.queues.Pairwise (fun a b => a.id ≠ b.id ∧ a.name ≠ b.name) ∧
  db.messages.Pairwise (fun a b => a.id ≠ b.id)

/-- Invariant: no message row has a negative attempt counter. -/
def attemptsNonneg (db : DB) : Prop :=
  ∀ m ∈ db.messages, 0 ≤ m.deliveryAttemptsRemaining

/-! ## Concrete fixtures used by witnesses and counterexamples -/

/-- A sample queue row. -/
def qA : Queue :=
  { id := 1, name := "q", ackDeadline := 10, retentionPeriod := 100,
    maxDeliveryAttempts := 5 }

/-- A message whose `available_at` is exactly the poll instant used below. -/
def mBoundary : Msg :=
  { queueId := 1, id := 1, expiresAt := 100, deliveryAttemptsRemaining := 1,
    availableAt := 5, body := "b" }

/-- A one-queue, one-message state for the deliverability boundary. -/
def dbBoundary : DB := { queues := [qA], messages := [mBoundary] }

/-! ## Helper lemmas -/

/-- Defining equation of the poll with no externally locked rows, once the
queue has been resolved. -/
theorem poll_eq_of_findQueue_some {db : DB} {queue_name : String} {q : Queue}
    (now : Int) (batch_size : Nat) (fifo : Bool)
    (hq : findQueue db queue_name = some q) :
    poll_for_messages db now queue_name batch_size fifo [] =
      (((if fifo then
            List.insertionSort msgIdLe (db.messages.filter (deliverable q.id now))
          else db.messages.filter (deliverable q.id now)).take batch_size).map
        (fun m => { id := m.id, next_ack_deadline := now + q.ackDeadline,
                    body := m.body }),
       { db with messages := db.messages.map (fun m =>
          if (((if fifo then
                  List.insertionSort msgIdLe
                    (db.messages.filter (deliverable q.id now))
                else db.messages.filter (deliverable q.id now)).take
                    batch_size).map Msg.id).contains m.id then
            { m with availableAt := now + q.ackDeadline,
                     deliveryAttemptsRemaining :=
                       m.deliveryAttemptsRemaining - 1 }
          else m) }) := by
  unfold poll_for_messages
  rw [hq]
  simp only [List.contains_nil, Bool.not_false, Bool.and_true]

/-- Membership is unchanged by the optional `ORDER BY id`. -/
theorem mem_ordered_iff {fifo : Bool} {l : List Msg} {m : Msg} :
    m ∈ (if fifo then List.insertionSort msgIdLe l else l) ↔ m ∈ l := by
  cases fifo <;> simp [List.mem_insertionSort]

/-! ## C1 — poll returns exactly the deliverable rows -/

/-- **C1, counterexample.** The claim takes `available_at ≤ now` as
deliverable ("a row whose available_at equals now exactly is deliverable").
The SQL uses the strict comparison `available_at < now()`: at instant `5`,
`dbBoundary`'s single message satisfies the spec's deliverability predicate
(its `available_at` equals `now`), yet a poll with `batch_size = 1` returns
no rows at all — fewer than `batch_size` while a spec-deliverable row of the
queue was not returned. -/
theorem poll_available_at_boundary_counterexample :
    mBoundary ∈ dbBoundary.messages ∧
    spec_deliverable qA.id 5 mBoundary = true ∧
    findQueue dbBoundary "q" = some qA ∧
    (poll_for_messages dbBoundary 5 "q" 1 false []).1 = [] := by
  refine ⟨by decide, by decide, by decide, by decide⟩

/-- **C1** (amended: a row is deliverable iff
`delivery_attempts_remaining ≠ 0 ∧ expires_at > now ∧ available_at < now` —
the comparison with `now` is strict, so a row whose `available_at` equals
`now` exactly is *not* deliverable). For every state in which the queue
resolves, a poll with no externally locked rows returns at most `batch_size`
rows; every returned row comes from a deliverable message of that queue and
carries its id, its body and `next_ack_deadline = now + ack_deadline`; and
whenever fewer than `batch_size` rows come back, every deliverable message of
the queue was returned. -/
theorem poll_sound_and_complete (db : DB) (now : Int) (queue_name : String)
    (q : Queue) (batch_size : Nat) (fifo : Bool)
    (hq : findQueue db queue_name = some q) :
    (poll_for_messages db now queue_name batch_size fifo []).1.length ≤ batch_size ∧
    (∀ r ∈ (poll_for_messages db now queue_name batch_size fifo []).1,
      ∃ m ∈ db.messages, deliverable q.id now m = true ∧
        r.id = m.id ∧ r.body = m.body ∧
        r.next_ack_deadline = now + q.ackDeadline) ∧
    ((poll_for_messages db now queue_name batch_size fifo []).1.length < batch_size →
      ∀ m ∈ db.messages, deliverable q.id now m = true →
        m.id ∈ (poll_for_messages db now queue_name batch_size fifo []).1.map
          PolledMsg.id) := by
  rw [poll_eq_of_findQueue_some now batch_size fifo hq]
  set ordered := if fifo then
      List.insertionSort msgIdLe (db.messages.filter (deliverable q.id now))
    else db.messages.filter (deliverable q.id now) with hord
  refine ⟨?_, ?_, ?_⟩
  · simp [List.length_take]
  · intro r hr
    simp only [List.mem_map] at hr
    obtain ⟨m, hm, hview⟩ := hr
    have hmem : m ∈ db.messages.filter (deliverable q.id now) :=
      mem_ordered_iff.mp (List.mem_of_mem_take hm)
    rw [List.mem_filter] at hmem
    exact ⟨m, hmem.1, hmem.2, by rw [← hview], by rw [← hview], by rw [← hview]⟩
  · intro hlt m hm hdel
    simp only [List.length_map, List.length_take] at hlt
    have hlen : ordered.length < batch_size := by
      rcases Nat.lt_or_ge ordered.length batch_size with h | h
      · exact h
      · exact absurd hlt (by simp [Nat.min_eq_left h])
    have htake : ordered.take batch_size = ordered :=
      List.take_of_length_le (Nat.le_of_lt hlen)
    have hmem : m ∈ ordered := by
      rw [mem_ordered_iff, List.mem_filter]
      exact ⟨hm, hdel⟩
    rw [htake]
    simp only [List.map_map, List.mem_map]
    exact ⟨m, hmem, rfl⟩

/-- **C1, witness.** The amended theorem applied to a concrete state: at
instant `6` the boundary message (available_at `5 < 6`) is deliverable and is
the unique row returned. -/
theorem poll_sound_and_complete_witness :
    findQueue dbBoundary "q" = some qA ∧
    ((poll_for_messages dbBoundary 6 "q" 2 false []).1.length ≤ 2 ∧
     (∀ r ∈ (poll_for_messages dbBoundary 6 "q" 2 false []).1,
       ∃ m ∈ dbBoundary.messages, deliverable qA.id 6 m = true ∧
         r.id = m.id ∧ r.body = m.body ∧
         r.next_ack_deadline = 6 + qA.ackDeadline) ∧
     ((poll_for_messages dbBoundary 6 "q" 2 false []).1.length < 2 →
       ∀ m ∈ dbBoundary.messages, deliverable qA.id 6 m = true →
         m.id ∈ (poll_for_messages dbBoundary 6 "q" 2 false []).1.map
           PolledMsg.id)) :=
  ⟨by decide, poll_sound_and_complete dbBoundary 6 "q" qA 2 false (by decide)⟩

/-! ## C2 — poll's update of the selected rows -/

/-- **C2.** For every row the poll returns, the state after the poll contains
that row with `delivery_attempts_remaining` decremented by exactly 1 and
`available_at = now + ack_deadline`; every returned record carries
`next_ack_deadline = now + ack_deadline`; rows whose id was not returned are
unchanged, and the queues table is untouched. -/
theorem poll_updates_returned_rows (db : DB) (now : Int) (queue_name : String)
    (q : Queue) (batch_size : Nat) (fifo : Bool)
    (hq : findQueue db queue_name = some q) :
    (poll_for_messages db now queue_name batch_size fifo []).2.queues = db.queues ∧
    (∀ r ∈ (poll_for_messages db now queue_name batch_size fifo []).1,
      r.next_ack_deadline = now + q.ackDeadline) ∧
    (∀ m ∈ db.messages,
      (m.id ∈ (poll_for_messages db now queue_name batch_size fifo []).1.map
          PolledMsg.id →
        ({ m with availableAt := now + q.ackDeadline,
                  deliveryAttemptsRemaining :=
                    m.deliveryAttemptsRemaining - 1 } : Msg) ∈
          (poll_for_messages db now queue_name batch_size fifo []).2.messages) ∧
      (m.id ∉ (poll_for_messages db now queue_name batch_size fifo []).1.map
          PolledMsg.id →
        m ∈ (poll_for_messages db now queue_name batch_size fifo []).2.messages)) := by
  rw [poll_eq_of_findQueue_some now batch_size fifo hq]
  set ordered := if fifo then
      List.insertionSort msgIdLe (db.messages.filter (deliverable q.id now))
    else db.messages.filter (deliverable q.id now) with hord
  refine ⟨rfl, ?_, ?_⟩
  · intro r hr
    simp only [List.mem_map] at hr
    obtain ⟨m, _, hview⟩ := hr
    rw [← hview]
  · intro m hm
    have hmapid :
        ((ordered.take batch_size).map
          (fun m => ({ id := m.id, next_ack_deadline := now + q.ackDeadline,
                       body := m.body } : PolledMsg))).map PolledMsg.id =
        (ordered.take batch_size).map Msg.id := by
      rw [List.map_map]
      rfl
    constructor
    · intro hid
      rw [hmapid] at hid
      refine List.mem_map.mpr ⟨m, hm, ?_⟩
      have hc : ((ordered.take batch_size).map Msg.id).contains m.id = true := by
        simpa using hid
      rw [hc]
      rfl
    · intro hid
      rw [hmapid] at hid
      refine List.mem_map.mpr ⟨m, hm, ?_⟩
      have hc : ((ordered.take batch_size).map Msg.id).contains m.id = false := by
        simpa using hid
      rw [hc]
      rfl

/-- **C2, witness.** At instant `6`, polling `dbBoundary` returns the single
message; the state afterwards holds it with `available_at = 16` and
`delivery_attempts_remaining` decremented from 1 to 0. -/
theorem poll_updates_returned_rows_witness :
    findQueue dbBoundary "q" = some qA ∧
    mBoundary ∈ dbBoundary.messages ∧
    mBoundary.id ∈ (poll_for_messages dbBoundary 6 "q" 1 false []).1.map
      PolledMsg.id ∧
    ({ mBoundary with availableAt := 6 + qA.ackDeadline,
                      deliveryAttemptsRemaining :=
                        mBoundary.deliveryAttemptsRemaining - 1 } : Msg) ∈
      (poll_for_messages dbBoundary 6 "q" 1 false []).2.messages :=
  ⟨by decide, by decide, by decide,
   (((poll_updates_returned_rows dbBoundary 6 "q" qA 1 false
        (by decide)).2.2 mBoundary (by decide)).1 (by decide))⟩

/-! ## C3 — FIFO ordering -/

/-- The empty state over the sample queue. -/
def dbEmpty : DB := { queues := [qA], messages := [] }

/-- Message published first, carrying the larger UUID. -/
def mLater : Msg :=
  { queueId := 1, id := 2, expiresAt := 100, deliveryAttemptsRemaining := 5,
    availableAt := 0, body := "first" }

/-- Message published second, carrying the smaller UUID. -/
def mEarlier : Msg :=
  { queueId := 1, id := 1, expiresAt := 100, deliveryAttemptsRemaining := 5,
    availableAt := 0, body := "second" }

/-- The state after publishing `mLater` then `mEarlier` at instant 0. -/
def dbFifo : DB := { queues := [qA], messages := [mLater, mEarlier] }

/-- **C3, counterexample.** The FIFO query is `ORDER BY id` where `id` *is*
the caller-supplied UUID (`PUBLISH_MESSAGES` inserts `$2`, the message id,
into the `id` column; the schema has no separate monotonic insertion key).
Publishing UUID 2 then UUID 1 (so insertion order is `[2, 1]`) and FIFO
polling both yields delivery order `[1, 2]` — not a subsequence of the
insertion order. -/
theorem fifo_orders_by_uuid_counterexample :
    (publish_messages_sql dbEmpty 0 "q" 2 "first" none).2.1 =
      { queues := [qA], messages := [mLater] } ∧
    (publish_messages_sql { queues := [qA], messages := [mLater] } 0 "q" 1
        "second" none).2.1 = dbFifo ∧
    dbFifo.messages.map Msg.id = [2, 1] ∧
    (poll_for_messages dbFifo 10 "q" 2 true []).1.map PolledMsg.id = [1, 2] ∧
    ¬ List.Sublist
        ((poll_for_messages dbFifo 10 "q" 2 true []).1.map PolledMsg.id)
        (dbFifo.messages.map Msg.id) := by
  refine ⟨by decide, by decide, by decide, by decide, by decide⟩

/-- **C3** (amended: the FIFO variant orders the returned rows by message id
ascending, where the id is the caller-supplied UUID rather than a separate
monotonic insertion key; the delivered sequence therefore follows ascending
UUID order, which coincides with insertion order only when ids were inserted
in ascending order). Every FIFO poll returns its batch sorted by id. -/
theorem fifo_poll_sorted_by_id (db : DB) (now : Int) (queue_name : String)
    (batch_size : Nat) (locked : List Nat) :
    List.Sorted (fun a b => a ≤ b)
      ((poll_for_messages db now queue_name batch_size true locked).1.map
        PolledMsg.id) := by
  unfold poll_for_messages
  cases hq : findQueue db queue_name with
  | none => simp
  | some q =>
    simp only [List.map_map]
    have hsorted : List.Sorted msgIdLe
        (List.insertionSort msgIdLe (db.messages.filter
          (fun m => deliverable q.id now m && !(locked.contains m.id)))) :=
      List.sorted_insertionSort msgIdLe _
    have htake : List.Sorted msgIdLe
        ((List.insertionSort msgIdLe (db.messages.filter
          (fun m => deliverable q.id now m && !(locked.contains m.id)))).take
            batch_size) :=
      List.Pairwise.sublist (List.take_sublist _ _) hsorted
    exact List.pairwise_map.mpr htake

/-! ## C4 — ack deletes the row and notifies iff it deleted -/

/-- **C4.** `ack_message`: a state row survives the ack iff it does not match
`(queue, job_id)` (so a matching row is deleted and a missing row makes the
whole call a no-op, never an error); the queues table is untouched; and the
`pgjobq.job_completed` notification with payload `(queue_name, job_id)` is
emitted iff a matching row existed — i.e. iff a row was actually deleted:
never a notification without a delete, never a delete without the
notification. -/
theorem ack_deletes_and_notifies_iff (db : DB) (queue_name : String)
    (job_id : Nat) :
    (∀ m, m ∈ (ack_message db queue_name job_id).1.messages ↔
      (m ∈ db.messages ∧ rowMatches db queue_name job_id m = false)) ∧
    (ack_message db queue_name job_id).1.queues = db.queues ∧
    ((¬ ∃ m ∈ db.messages, rowMatches db queue_name job_id m = true) →
      (ack_message db queue_name job_id).1 = db) ∧
    ((ack_message db queue_name job_id).2 =
        [Notif.jobCompleted queue_name job_id] ↔
      ∃ m ∈ db.messages, rowMatches db queue_name job_id m = true) ∧
    ((ack_message db queue_name job_id).2 = [] ↔
      ¬ ∃ m ∈ db.messages, rowMatches db queue_name job_id m = true) := by
  have hnot : (ack_message db queue_name job_id).2 =
      if db.messages.any (fun m => rowMatches db queue_name job_id m) then
        [Notif.jobCompleted queue_name job_id] else [] := rfl
  refine ⟨?_, rfl, ?_, ?_, ?_⟩
  · intro m
    simp [ack_message, List.mem_filter]
  · intro hno
    have hfilter : db.messages.filter
        (fun m => !(rowMatches db queue_name job_id m)) = db.messages := by
      apply List.filter_eq_self.mpr
      intro m hm
      cases hmatch : rowMatches db queue_name job_id m
      · rfl
      · exact absurd ⟨m, hm, hmatch⟩ hno
    have hdef : (ack_message db queue_name job_id).1 =
        { db with messages :=
                    db.messages.filter
                      (fun m => !(rowMatches db queue_name job_id m)) } := rfl
    rw [hdef, hfilter]
  · rw [hnot]
    by_cases hex : ∃ m ∈ db.messages, rowMatches db queue_name job_id m = true
    · have ht : db.messages.any (fun m => rowMatches db queue_name job_id m)
          = true := by
        rw [List.any_eq_true]; simpa using hex
      rw [if_pos ht]
      exact ⟨fun _ => hex, fun _ => rfl⟩
    · have hf : ¬ (db.messages.any (fun m => rowMatches db queue_name job_id m)
          = true) := by
        rw [List.any_eq_true]; simpa using hex
      rw [if_neg hf]
      exact ⟨fun h => absurd h (by simp), fun h => absurd h hex⟩
  · rw [hnot]
    by_cases hex : ∃ m ∈ db.messages, rowMatches db queue_name job_id m = true
    · have ht : db.messages.any (fun m => rowMatches db queue_name job_id m)
          = true := by
        rw [List.any_eq_true]; simpa using hex
      rw [if_pos ht]
      exact ⟨fun h => absurd h (by simp), fun h => absurd hex h⟩
    · have hf : ¬ (db.messages.any (fun m => rowMatches db queue_name job_id m)
          = true) := by
        rw [List.any_eq_true]; simpa using hex
      rw [if_neg hf]
      exact ⟨fun _ => hex, fun _ => rfl⟩

/-- **C4, witness.** Acking the boundary state's only message emits exactly
its `job_completed` notification and removes the row; acking an absent job id
leaves the state untouched and emits nothing. -/
theorem ack_deletes_and_notifies_iff_witness :
    (ack_message dbBoundary "q" 1).2 = [Notif.jobCompleted "q" 1] ∧
    ¬ mBoundary ∈ (ack_message dbBoundary "q" 1).1.messages ∧
    (ack_message dbBoundary "q" 99).1 = dbBoundary ∧
    (ack_message dbBoundary "q" 99).2 = [] :=
  ⟨(ack_deletes_and_notifies_iff dbBoundary "q" 1).2.2.2.1.mpr
      ⟨mBoundary, by decide, by decide⟩,
   fun h => absurd
     (((ack_deletes_and_notifies_iff dbBoundary "q" 1).1 mBoundary).mp h).2
     (by decide),
   (ack_deletes_and_notifies_iff dbBoundary "q" 99).2.2.1
     (fun hex => by
       obtain ⟨m, hm, hmatch⟩ := hex
       have : m = mBoundary := by
         cases List.mem_singleton.mp hm
         rfl
       subst this
       exact absurd hmatch (by decide)),
   (ack_deletes_and_notifies_iff dbBoundary "q" 99).2.2.2.2.mpr
     (fun hex => by
       obtain ⟨m, hm, hmatch⟩ := hex
       have : m = mBoundary := by
         cases List.mem_singleton.mp hm
         rfl
       subst this
       exact absurd hmatch (by decide))⟩

/-! ## C5 — publish to a missing queue fails atomically -/

/-- **C5.** `publish_messages` raises the queue-not-found error iff no queue
of that name exists; and in that case the statement inserted nothing and
emitted nothing: `publish_messages_sql` returns `fetchval = NULL`, the state
unchanged, and an empty notification list. -/
theorem publish_error_iff_queue_missing (db : DB) (now : Int)
    (queue_name : String) (message_id : Nat) (message_body : String)
    (delay : Option Int) :
    ((∃ e, publish_messages db now queue_name message_id message_body delay =
        Except.error e) ↔ findQueue db queue_name = none) ∧
    (findQueue db queue_name = none →
      publish_messages_sql db now queue_name message_id message_body delay =
        (none, db, [])) := by
  have hsql : findQueue db queue_name = none →
      publish_messages_sql db now queue_name message_id message_body delay =
        (none, db, []) := by
    intro hq
    unfold publish_messages_sql
    rw [hq]
  refine ⟨⟨?_, ?_⟩, hsql⟩
  · rintro ⟨e, he⟩
    cases hq : findQueue db queue_name with
    | none => rfl
    | some q =>
      unfold publish_messages publish_messages_sql at he
      rw [hq] at he
      simp at he
  · intro hq
    refine ⟨"Queue not found: there is no queue named " ++ queue_name, ?_⟩
    unfold publish_messages
    rw [hsql hq]

/-- **C5, witness.** Publishing to the nonexistent queue `"missing"` errors,
and the statement touched nothing. -/
theorem publish_error_iff_queue_missing_witness :
    (∃ e, publish_messages dbBoundary 0 "missing" 7 "x" none =
      Except.error e) ∧
    publish_messages_sql dbBoundary 0 "missing" 7 "x" none =
      (none, dbBoundary, []) :=
  ⟨(publish_error_iff_queue_missing dbBoundary 0 "missing" 7 "x" none).1.mpr
     (by decide),
   (publish_error_iff_queue_missing dbBoundary 0 "missing" 7 "x" none).2
     (by decide)⟩

/-! ## C8 — publish on an existing queue -/

/-- **C8.** When the queue resolves, publish succeeds and appends exactly one
message row, with `queue_id` the queue's id, `expires_at = now +
retention_period`, `delivery_attempts_remaining = max_delivery_attempts`,
`available_at = now + delay` (an absent delay defaulting to 0, i.e.
`available_at = now`), and emits exactly one `pgjobq.new_job` notification
carrying the queue name. -/
theorem publish_inserts_one_row_and_notifies (db : DB) (now : Int)
    (queue_name : String) (q : Queue) (message_id : Nat)
    (message_body : String) (delay : Option Int)
    (hq : findQueue db queue_name = some q) :
    publish_messages db now queue_name message_id message_body delay =
      Except.ok
        ({ db with messages := db.messages ++
            [{ queueId := q.id,
               id := message_id,
               expiresAt := now + q.retentionPeriod,
               deliveryAttemptsRemaining := q.maxDeliveryAttempts,
               availableAt := now + delay.getD 0,
               body := message_body }] },
         [Notif.newJob queue_name]) ∧
    (delay = none → now + delay.getD 0 = now) := by
  constructor
  · unfold publish_messages publish_messages_sql
    rw [hq]
  · intro hd
    rw [hd]
    simp

/-- **C8, witness.** Publishing id 9 with no delay at instant 3 appends the
one row with `available_at = 3` and notifies `new_job "q"`. -/
theorem publish_inserts_one_row_and_notifies_witness :
    publish_messages dbEmpty 3 "q" 9 "payload" none =
      Except.ok
        ({ dbEmpty with messages := dbEmpty.messages ++
            [{ queueId := qA.id,
               id := 9,
               expiresAt := 3 + qA.retentionPeriod,
               deliveryAttemptsRemaining := qA.maxDeliveryAttempts,
               availableAt := 3 + (none : Option Int).getD 0,
               body := "payload" }] },
         [Notif.newJob "q"]) ∧
    ((none : Option Int) = none → 3 + (none : Option Int).getD 0 = 3) :=
  publish_inserts_one_row_and_notifies dbEmpty 3 "q" qA 9 "payload" none
    (by decide)

/-! ## C6 — nack resets available_at and nothing else -/

/-- **C6.** `nack_message` touches no queue row, adds and removes no message;
a non-matching message row is left unchanged; the matching row keeps its id,
queue, body, expiry and attempt counter and only has `available_at` set to
`now` — after which it is deliverable at every instant strictly after `now`
(provided attempts remain and it has not expired by then). -/
theorem nack_resets_available_at_only (db : DB) (now : Int)
    (queue_name : String) (job_id : Nat) :
    (nack_message db now queue_name job_id).1.queues = db.queues ∧
    (nack_message db now queue_name job_id).1.messages.length =
      db.messages.length ∧
    (∀ m ∈ db.messages, rowMatches db queue_name job_id m = false →
      m ∈ (nack_message db now queue_name job_id).1.messages) ∧
    (∀ m ∈ db.messages, rowMatches db queue_name job_id m = true →
      ∃ m' ∈ (nack_message db now queue_name job_id).1.messages,
        m'.availableAt = now ∧ m'.id = m.id ∧ m'.queueId = m.queueId ∧
        m'.body = m.body ∧ m'.expiresAt = m.expiresAt ∧
        m'.deliveryAttemptsRemaining = m.deliveryAttemptsRemaining ∧
        (∀ t, now < t → m.deliveryAttemptsRemaining ≠ 0 → t < m.expiresAt →
          deliverable m.queueId t m' = true)) := by
  refine ⟨rfl, by simp [nack_message], ?_, ?_⟩
  · intro m hm hmatch
    refine List.mem_map.mpr ⟨m, hm, ?_⟩
    rw [hmatch]
    rfl
  · intro m hm hmatch
    refine ⟨{ m with availableAt := now }, List.mem_map.mpr ⟨m, hm, ?_⟩,
      rfl, rfl, rfl, rfl, rfl, rfl, ?_⟩
    · rw [hmatch]
      rfl
    · intro t ht hatt hexp
      simp only [deliverable]
      simp [hatt, hexp, ht]

/-- **C6, witness.** Nacking the boundary message at instant 8 leaves one row
whose `available_at` is 8 and whose every other field is unchanged, and which
is deliverable at instant 9. -/
theorem nack_resets_available_at_only_witness :
    (nack_message dbBoundary 8 "q" 1).1.messages.length =
      dbBoundary.messages.length ∧
    ∃ m' ∈ (nack_message dbBoundary 8 "q" 1).1.messages,
      m'.availableAt = 8 ∧ m'.id = mBoundary.id ∧
      m'.queueId = mBoundary.queueId ∧ m'.body = mBoundary.body ∧
      m'.expiresAt = mBoundary.expiresAt ∧
      m'.deliveryAttemptsRemaining = mBoundary.deliveryAttemptsRemaining ∧
      deliverable mBoundary.queueId 9 m' = true :=
  ⟨(nack_resets_available_at_only dbBoundary 8 "q" 1).2.1,
   by
    obtain ⟨m', hmem, h1, h2, h3, h4, h5, h6, hdel⟩ :=
      (nack_resets_available_at_only dbBoundary 8 "q" 1).2.2.2 mBoundary
        (by decide) (by decide)
    exact ⟨m', hmem, h1, h2, h3, h4, h5, h6,
      hdel 9 (by decide) (by decide) (by decide)⟩⟩

/-! ## C7 — extend_ack_deadline -/

/-- With unique queue ids, looking a member queue up by its own id finds it. -/
theorem find?_queue_by_id {qs : List Queue} {q : Queue}
    (hpair : qs.Pairwise (fun a b => a.id ≠ b.id ∧ a.name ≠ b.name))
    (hq : q ∈ qs) : qs.find? (fun q' => q'.id == q.id) = some q := by
  induction qs with
  | nil => cases hq
  | cons a l ih =>
    rw [List.pairwise_cons] at hpair
    rcases List.mem_cons.mp hq with rfl | hmem
    · simp [List.find?]
    · have hne : a.id ≠ q.id := (hpair.1 q hmem).1
      have hbeq : (a.id == q.id) = false := by simpa using hne
      simp only [List.find?, hbeq]
      exact ih hpair.2 hmem

/-- Over a list with pairwise-distinct ids, a filter whose matches all carry
one fixed id and which has at least one match returns exactly that match. -/
theorem filter_unique_eq_single {l : List Msg} {p : Msg → Bool} {m : Msg}
    {j : Nat} (hpair : l.Pairwise (fun a b => a.id ≠ b.id))
    (hid : ∀ x ∈ l, p x = true → x.id = j)
    (hm : m ∈ l) (hpm : p m = true) : l.filter p = [m] := by
  induction l with
  | nil => cases hm
  | cons a t ih =>
    rw [List.pairwise_cons] at hpair
    rcases List.mem_cons.mp hm with rfl | hmem
    · rw [List.filter_cons_of_pos hpm]
      have hnil : t.filter p = [] := by
        rw [List.filter_eq_nil_iff]
        intro x hx hpx
        have hxj : x.id = j := hid x (List.mem_cons_of_mem m hx) hpx
        have hmj : m.id = j := hid m (List.mem_cons_self _ _) hpm
        exact absurd (hmj.trans hxj.symm) (hpair.1 x hx)
      rw [hnil]
    · have hpa : p a = false := by
        cases hpa : p a
        · rfl
        · have haj : a.id = j := hid a (List.mem_cons_self _ _) hpa
          have hmj : m.id = j := hid m hm hpm
          exact absurd (haj.trans hmj.symm) (hpair.1 m hmem)
      rw [List.filter_cons_of_neg (by simp [hpa])]
      exact ih hpair.2 (fun x hx hpx => hid x (List.mem_cons_of_mem a hx) hpx)
        hmem

/-- Defining equation of `extend_ack_deadline` when the locked-skipping
selection is empty. -/
theorem extend_eq_none_of_empty {db : DB} {queue_name : String} {job_id : Nat}
    {locked : List Nat} (now : Int)
    (hmfu : db.messages.filter (fun m =>
      rowMatches db queue_name job_id m && !(locked.contains m.id)) = []) :
    extend_ack_deadline db now queue_name job_id locked = (none, db) := by
  unfold extend_ack_deadline
  rw [hmfu]

/-- Defining equation of `extend_ack_deadline` when the selection is the
single row `m` and `m`'s queue resolves to `q`. -/
theorem extend_eq_of_single {db : DB} {queue_name : String} {job_id : Nat}
    {locked : List Nat} {m : Msg} {q : Queue} (now : Int)
    (hmfu : db.messages.filter (fun m' =>
      rowMatches db queue_name job_id m' && !(locked.contains m'.id)) = [m])
    (hfind : db.queues.find? (fun q' => q'.id == m.queueId) = some q) :
    extend_ack_deadline db now queue_name job_id locked =
      (some (now + q.ackDeadline),
       { db with messages := db.messages.map (fun m' =>
          if m'.id == m.id then { m' with availableAt := now + q.ackDeadline }
          else m') }) := by
  unfold extend_ack_deadline
  rw [hmfu]
  dsimp only
  rw [hfind]

/-- **C7.** `extend_ack_deadline` on a well-formed state: if no row matches
`(queue, job_id)` or the matching row is locked by another statement, it
modifies nothing and returns nothing; if the matching row exists and is
unlocked, it returns `some (now + ack_deadline)` of the row's queue, stores
that value as the row's new `available_at` (all other fields kept), leaves
every other row unchanged, and leaves the queues table untouched. -/
theorem extend_deadline_locks_and_updates (db : DB) (now : Int)
    (queue_name : String) (job_id : Nat) (locked : List Nat)
    (hwf : db.wf) :
    ((∀ m ∈ db.messages, rowMatches db queue_name job_id m = false ∨
        m.id ∈ locked) →
      extend_ack_deadline db now queue_name job_id locked = (none, db)) ∧
    (∀ q, findQueue db queue_name = some q →
      ∀ m ∈ db.messages, rowMatches db queue_name job_id m = true →
        m.id ∉ locked →
        (extend_ack_deadline db now queue_name job_id locked).1 =
          some (now + q.ackDeadline) ∧
        ({ m with availableAt := now + q.ackDeadline } : Msg) ∈
          (extend_ack_deadline db now queue_name job_id locked).2.messages ∧
        (∀ m' ∈ db.messages, m'.id ≠ m.id →
          m' ∈ (extend_ack_deadline db now queue_name job_id locked).2.messages) ∧
        (extend_ack_deadline db now queue_name job_id locked).2.queues =
          db.queues) := by
  constructor
  · intro hno
    apply extend_eq_none_of_empty
    rw [List.filter_eq_nil_iff]
    intro m hm
    rcases hno m hm with hfalse | hlocked
    · simp [hfalse]
    · simp [hlocked]
  · intro q hq m hm hmatch hunlocked
    have hqid : q.id = m.queueId := by
      have := hmatch
      unfold rowMatches at this
      rw [hq] at this
      have h1 : (some q.id == some m.queueId) = true := by
        simpa using (Bool.and_eq_true_iff.mp this).1
      simpa using h1
    have hmfu : db.messages.filter (fun m' =>
        rowMatches db queue_name job_id m' && !(locked.contains m'.id)) =
        [m] := by
      apply filter_unique_eq_single hwf.2
      · intro x _ hpx
        have hx : rowMatches db queue_name job_id x = true :=
          (Bool.and_eq_true_iff.mp hpx).1
        unfold rowMatches at hx
        have : (x.id == job_id) = true := (Bool.and_eq_true_iff.mp hx).2
        simpa using this
      · exact hm
      · have hid : m.id = job_id := by
          unfold rowMatches at hmatch
          have : (m.id == job_id) = true := (Bool.and_eq_true_iff.mp hmatch).2
          simpa using this
        simp [hmatch, hunlocked]
    have hfind : db.queues.find? (fun q' => q'.id == m.queueId) = some q := by
      rw [← hqid]
      exact find?_queue_by_id hwf.1 (List.mem_of_find?_eq_some hq)
    rw [extend_eq_of_single now hmfu hfind]
    refine ⟨rfl, ?_, ?_, rfl⟩
    · refine List.mem_map.mpr ⟨m, hm, ?_⟩
      rw [beq_self_eq_true]
      rfl
    · intro m' hm' hne
      refine List.mem_map.mpr ⟨m', hm', ?_⟩
      have : (m'.id == m.id) = false := by simpa using hne
      rw [this]
      rfl

/-- **C7, witness.** Extending the boundary message's deadline at instant 7
with nothing locked returns `some 17` and stores it; extending with the row
locked returns nothing and changes nothing. -/
theorem extend_deadline_locks_and_updates_witness :
    (extend_ack_deadline dbBoundary 7 "q" 1 []).1 =
      some (7 + qA.ackDeadline) ∧
    ({ mBoundary with availableAt := 7 + qA.ackDeadline } : Msg) ∈
      (extend_ack_deadline dbBoundary 7 "q" 1 []).2.messages ∧
    extend_ack_deadline dbBoundary 7 "q" 1 [1] = (none, dbBoundary) := by
  have h := (extend_deadline_locks_and_updates dbBoundary 7 "q" 1 []
      (by constructor <;> decide)).2 qA (by decide) mBoundary (by decide)
      (by decide) (by simp)
  have hlocked := (extend_deadline_locks_and_updates dbBoundary 7 "q" 1 [1]
      (by constructor <;> decide)).1
      (fun m hm => Or.inr (by
        have : m = mBoundary := by
          cases List.mem_singleton.mp hm
          rfl
        rw [this]
        decide))
  exact ⟨h.1, h.2.1, hlocked⟩

/-! ## C9 — a missing queue means "no rows" for poll, ack, nack, extend -/

/-- When the queue name does not resolve, `rowMatches` rejects every row
(the scalar subquery is NULL). -/
theorem rowMatches_of_no_queue {db : DB} {queue_name : String}
    (job_id : Nat) (hq : findQueue db queue_name = none) :
    ∀ m, rowMatches db queue_name job_id m = false := by
  intro m
  unfold rowMatches
  rw [hq]
  rfl

/-- **C9.** Calling poll, ack, nack or extend_deadline with a queue name for
which no queue exists raises no error and behaves exactly as if there were no
rows: poll returns the empty list, ack deletes nothing and emits nothing,
nack updates nothing and emits nothing, extend_deadline modifies nothing and
returns nothing — in every case the state (including every other queue's
rows) is returned unchanged. -/
theorem missing_queue_behaves_as_no_rows (db : DB) (now : Int)
    (queue_name : String) (job_id : Nat) (batch_size : Nat) (fifo : Bool)
    (locked : List Nat) (hq : findQueue db queue_name = none) :
    poll_for_messages db now queue_name batch_size fifo locked = ([], db) ∧
    ack_message db queue_name job_id = (db, []) ∧
    nack_message db now queue_name job_id = (db, []) ∧
    extend_ack_deadline db now queue_name job_id locked = (none, db) := by
  have hmatch := rowMatches_of_no_queue job_id hq
  refine ⟨?_, ?_, ?_, ?_⟩
  · unfold poll_for_messages
    rw [hq]
  · unfold ack_message
    simp [hmatch]
  · unfold nack_message
    simp [hmatch]
  · apply extend_eq_none_of_empty
    rw [List.filter_eq_nil_iff]
    intro m _
    simp [hmatch]

/-- **C9, witness.** Against the boundary state, every read/write operation
addressed to the nonexistent queue `"ghost"` is a no-op returning "no
rows". -/
theorem missing_queue_behaves_as_no_rows_witness :
    poll_for_messages dbBoundary 6 "ghost" 3 true [] = ([], dbBoundary) ∧
    ack_message dbBoundary "ghost" 1 = (dbBoundary, []) ∧
    nack_message dbBoundary 6 "ghost" 1 = (dbBoundary, []) ∧
    extend_ack_deadline dbBoundary 6 "ghost" 1 [] = (none, dbBoundary) :=
  missing_queue_behaves_as_no_rows dbBoundary 6 "ghost" 1 3 true []
    (by decide)

/-! ## C10 — the attempt counter never goes negative -/

/-- Two members of a list with pairwise-distinct ids agree iff their ids
do. -/
theorem eq_of_mem_of_id_eq {l : List Msg}
    (hpair : l.Pairwise (fun a b => a.id ≠ b.id))
    {x y : Msg} (hx : x ∈ l) (hy : y ∈ l) (hid : x.id = y.id) : x = y := by
  induction l with
  | nil => cases hx
  | cons a t ih =>
    rw [List.pairwise_cons] at hpair
    rcases List.mem_cons.mp hx with rfl | hxt
    · rcases List.mem_cons.mp hy with rfl | hyt
      · rfl
      · exact absurd hid (hpair.1 y hyt)
    · rcases List.mem_cons.mp hy with rfl | hyt
      · exact absurd hid.symm (hpair.1 x hxt)
      · exact ih hpair.2 hxt hyt

/-- Defining equation of the poll once the queue has been resolved, with an
arbitrary set of externally locked rows. -/
theorem poll_eq_of_findQueue_some_locked {db : DB} {queue_name : String}
    {q : Queue} (now : Int) (batch_size : Nat) (fifo : Bool)
    (locked : List Nat) (hq : findQueue db queue_name = some q) :
    poll_for_messages db now queue_name batch_size fifo locked =
      (((if fifo then
            List.insertionSort msgIdLe (db.messages.filter
              (fun m => deliverable q.id now m && !(locked.contains m.id)))
          else db.messages.filter
              (fun m => deliverable q.id now m && !(locked.contains m.id))).take
            batch_size).map
        (fun m => { id := m.id, next_ack_deadline := now + q.ackDeadline,
                    body := m.body }),
       { db with messages := db.messages.map (fun m =>
          if (((if fifo then
                  List.insertionSort msgIdLe (db.messages.filter
                    (fun m => deliverable q.id now m && !(locked.contains m.id)))
                else db.messages.filter
                    (fun m => deliverable q.id now m &&
                      !(locked.contains m.id))).take batch_size).map
                Msg.id).contains m.id then
            { m with availableAt := now + q.ackDeadline,
                     deliveryAttemptsRemaining :=
                       m.deliveryAttemptsRemaining - 1 }
          else m) }) := by
  unfold poll_for_messages
  rw [hq]

/-- **C10.** Preservation of the non-negative attempt counter: from any
well-formed state in which every row has `delivery_attempts_remaining ≥ 0`,
each of the five operations yields a state in which every row still has
`delivery_attempts_remaining ≥ 0` (publish assumes the queues' configured
`max_delivery_attempts` is positive); and poll only ever returns rows whose
stored counter was non-zero, so a row that has reached 0 is never delivered
again. -/
theorem attempt_counter_stays_nonneg (db : DB) (now : Int)
    (queue_name : String) (message_id job_id : Nat) (message_body : String)
    (delay : Option Int) (batch_size : Nat) (fifo : Bool) (locked : List Nat)
    (hinv : attemptsNonneg db) (hwf : db.wf)
    (hpos : ∀ q ∈ db.queues, 0 < q.maxDeliveryAttempts) :
    attemptsNonneg (publish_messages_sql db now queue_name message_id
      message_body delay).2.1 ∧
    attemptsNonneg (poll_for_messages db now queue_name batch_size fifo
      locked).2 ∧
    attemptsNonneg (ack_message db queue_name job_id).1 ∧
    attemptsNonneg (nack_message db now queue_name job_id).1 ∧
    attemptsNonneg (extend_ack_deadline db now queue_name job_id locked).2 ∧
    (∀ r ∈ (poll_for_messages db now queue_name batch_size fifo locked).1,
      ∃ m ∈ db.messages, m.id = r.id ∧ m.deliveryAttemptsRemaining ≠ 0) := by
  refine ⟨?_, ?_, ?_, ?_, ?_, ?_⟩
  · -- publish
    unfold publish_messages_sql
    cases hq : findQueue db queue_name with
    | none => exact hinv
    | some q =>
      intro m hm
      rcases List.mem_append.mp hm with hold | hnew
      · exact hinv m hold
      · rw [List.mem_singleton.mp hnew]
        exact Int.le_of_lt (hpos q (List.mem_of_find?_eq_some hq))
  · -- poll
    cases hq : findQueue db queue_name with
    | none =>
      unfold poll_for_messages
      rw [hq]
      exact hinv
    | some q =>
      rw [poll_eq_of_findQueue_some_locked now batch_size fifo locked hq]
      set pred := fun m => deliverable q.id now m && !(locked.contains m.id)
        with hpred
      set ordered := if fifo then
          List.insertionSort msgIdLe (db.messages.filter pred)
        else db.messages.filter pred with hord
      intro m' hm'
      rcases List.mem_map.mp hm' with ⟨m, hm, hf⟩
      by_cases hc : ((ordered.take batch_size).map Msg.id).contains m.id = true
      · rw [if_pos hc] at hf
        have hcm : m.id ∈ List.map Msg.id ordered :=
          List.mem_of_mem_take (by simpa using hc)
        rcases List.mem_map.mp hcm with ⟨x, hx, hxid⟩
        have hxmem : x ∈ db.messages.filter pred := mem_ordered_iff.mp hx
        rw [List.mem_filter] at hxmem
        have hxdel : deliverable q.id now x = true :=
          (Bool.and_eq_true_iff.mp hxmem.2).1
        have hxm : x = m := eq_of_mem_of_id_eq hwf.2 hxmem.1 hm hxid
        have hne : m.deliveryAttemptsRemaining ≠ 0 := by
          have := hxdel
          unfold deliverable at this
          have h1 := (Bool.and_eq_true_iff.mp
            (Bool.and_eq_true_iff.mp
              (Bool.and_eq_true_iff.mp this).1).1).1
          rw [hxm] at h1
          simpa using h1
        have hge := hinv m hm
        rw [← hf]
        have : (1 : Int) ≤ m.deliveryAttemptsRemaining := by omega
        simpa using this
      · rw [if_neg hc] at hf
        rw [← hf]
        exact hinv m hm
  · -- ack
    intro m hm
    have hmm : m ∈ db.messages ∧ rowMatches db queue_name job_id m = false := by
      simpa [ack_message, List.mem_filter] using hm
    exact hinv m hmm.1
  · -- nack
    intro m' hm'
    rcases List.mem_map.mp (by simpa [nack_message] using hm') with ⟨m, hm, hf⟩
    by_cases hmatch : rowMatches db queue_name job_id m = true
    · rw [if_pos hmatch] at hf
      rw [← hf]
      exact hinv m hm
    · rw [if_neg hmatch] at hf
      rw [← hf]
      exact hinv m hm
  · -- extend
    unfold extend_ack_deadline
    cases hmfu : db.messages.filter (fun m =>
        rowMatches db queue_name job_id m && !(locked.contains m.id)) with
    | nil => exact hinv
    | cons m0 rest =>
      dsimp only
      cases hfind : db.queues.find? (fun q => q.id == m0.queueId) with
      | none => exact hinv
      | some q =>
        dsimp only
        intro m' hm'
        rcases List.mem_map.mp hm' with ⟨m, hm, hf⟩
        by_cases hid : (m.id == m0.id) = true
        · rw [if_pos hid] at hf
          rw [← hf]
          exact hinv m hm
        · rw [if_neg hid] at hf
          rw [← hf]
          exact hinv m hm
  · -- no redelivery at zero attempts
    cases hq : findQueue db queue_name with
    | none =>
      unfold poll_for_messages
      rw [hq]
      intro r hr
      cases hr
    | some q =>
      rw [poll_eq_of_findQueue_some_locked now batch_size fifo locked hq]
      intro r hr
      rcases List.mem_map.mp hr with ⟨m, hm, hview⟩
      have hmem : m ∈ db.messages.filter
          (fun m => deliverable q.id now m && !(locked.contains m.id)) :=
        mem_ordered_iff.mp (List.mem_of_mem_take hm)
      rw [List.mem_filter] at hmem
      have hdel : deliverable q.id now m = true :=
        (Bool.and_eq_true_iff.mp hmem.2).1
      refine ⟨m, hmem.1, by rw [← hview], ?_⟩
      unfold deliverable at hdel
      have h1 := (Bool.and_eq_true_iff.mp
        (Bool.and_eq_true_iff.mp (Bool.and_eq_true_iff.mp hdel).1).1).1
      simpa using h1

/-- **C10, witness.** The invariant theorem applied to the boundary state:
after a batch-2 poll at instant 6 every stored counter is still ≥ 0, and the
one delivered row came from a message whose counter was non-zero. -/
theorem attempt_counter_stays_nonneg_witness :
    attemptsNonneg dbBoundary ∧
    attemptsNonneg (poll_for_messages dbBoundary 6 "q" 2 false []).2 ∧
    (∀ r ∈ (poll_for_messages dbBoundary 6 "q" 2 false []).1,
      ∃ m ∈ dbBoundary.messages, m.id = r.id ∧
        m.deliveryAttemptsRemaining ≠ 0) := by
  have hinv : attemptsNonneg dbBoundary := by
    intro m hm
    rw [List.mem_singleton.mp hm]
    decide
  have h := attempt_counter_stays_nonneg dbBoundary 6 "q" 9 1 "x" none 2 false
    [] hinv (by constructor <;> decide)
    (fun q hq => by
      rw [List.mem_singleton.mp hq]
      decide)
  exact ⟨hinv, h.2.1, h.2.2.2.2.2⟩

end Pgjobq
